import Mathlib

set_option maxRecDepth 8000

/-! Shallow embedding of the video-clip core: the time-expression parser
(`src/time_parser.rs`) and the transcode command builder (`src/ffmpeg.rs`).
Rust `f64` values are modelled by `FV`: finite doubles are represented by
exact rationals (every value arising in this development is exactly
representable, and the arithmetic on them is exact), together with the IEEE
special values. Rust strings are modelled as `List Char`. -/

/-- Rational addition, computed through `mkRat` (kernel-reducible, unlike
the irreducible library addition; `qAdd_eq` below bridges the two). -/
def qAdd (a b : ℚ) : ℚ := mkRat (a.num * (b.den : ℤ) + b.num * (a.den : ℤ)) (a.den * b.den)

/-- Rational multiplication, computed through `mkRat`. -/
def qMul (a b : ℚ) : ℚ := mkRat (a.num * b.num) (a.den * b.den)

/-- Rational negation, computed through `mkRat`. -/
def qNeg (a : ℚ) : ℚ := mkRat (-a.num) a.den

/-- Model of an `f64` value: an exact rational for finite doubles, plus the
IEEE special values infinity, negative infinity and NaN. -/
inductive FV where
  | fin (q : ℚ)
  | posInf
  | negInf
  | nan
deriving DecidableEq

/-- IEEE addition on modelled floats (finite arithmetic taken exact). -/
def FV.add : FV → FV → FV
  | .nan, _ => .nan
  | .fin _, .nan => .nan
  | .posInf, .nan => .nan
  | .negInf, .nan => .nan
  | .fin a, .fin b => .fin (qAdd a b)
  | .fin _, .posInf => .posInf
  | .fin _, .negInf => .negInf
  | .posInf, .fin _ => .posInf
  | .negInf, .fin _ => .negInf
  | .posInf, .posInf => .posInf
  | .negInf, .negInf => .negInf
  | .posInf, .negInf => .nan
  | .negInf, .posInf => .nan

/-- IEEE multiplication on modelled floats (finite arithmetic taken exact). -/
def FV.mul : FV → FV → FV
  | .nan, _ => .nan
  | .fin _, .nan => .nan
  | .posInf, .nan => .nan
  | .negInf, .nan => .nan
  | .fin a, .fin b => .fin (qMul a b)
  | .fin a, .posInf => if 0 < a then .posInf else if a < 0 then .negInf else .nan
  | .fin a, .negInf => if 0 < a then .negInf else if a < 0 then .posInf else .nan
  | .posInf, .fin b => if 0 < b then .posInf else if b < 0 then .negInf else .nan
  | .negInf, .fin b => if 0 < b then .negInf else if b < 0 then .posInf else .nan
  | .posInf, .posInf => .posInf
  | .posInf, .negInf => .negInf
  | .negInf, .posInf => .negInf
  | .negInf, .negInf => .posInf

/-- IEEE negation on modelled floats. -/
def FV.neg : FV → FV
  | .fin a => .fin (qNeg a)
  | .posInf => .negInf
  | .negInf => .posInf
  | .nan => .nan

/-- IEEE subtraction on modelled floats. -/
def FV.sub (a b : FV) : FV := a.add b.neg

/-- IEEE less-or-equal comparison on modelled floats: any comparison with
NaN is false. -/
def FV.le : FV → FV → Bool
  | .nan, _ => false
  | .fin _, .nan => false
  | .posInf, .nan => false
  | .negInf, .nan => false
  | .fin a, .fin b => decide (a ≤ b)
  | .negInf, _ => true
  | .fin _, .posInf => true
  | .posInf, .posInf => true
  | .posInf, .fin _ => false
  | .posInf, .negInf => false
  | .fin _, .negInf => false

/-- Abbreviation turning a string literal into its character list. -/
def cs (s : String) : List Char := s.toList

/-- Rust `char::is_ascii_digit`: the code point lies in the ASCII range
of `'0'` (48) to `'9'` (57). -/
def isAsciiDigit (c : Char) : Bool := decide (48 ≤ c.toNat ∧ c.toNat ≤ 57)

/-- Rust `char::is_whitespace`: the Unicode White_Space code points. -/
def rustIsWhitespace (c : Char) : Bool :=
  decide (9 ≤ c.toNat ∧ c.toNat ≤ 13) || decide (c.toNat = 32) ||
  decide (c.toNat = 133) || decide (c.toNat = 160) || decide (c.toNat = 5760) ||
  decide (8192 ≤ c.toNat ∧ c.toNat ≤ 8202) || decide (c.toNat = 8232) ||
  decide (c.toNat = 8233) || decide (c.toNat = 8239) || decide (c.toNat = 8287) ||
  decide (c.toNat = 12288)

/-- ASCII lowercasing of one character (Rust `str::to_lowercase` restricted
to the ASCII range; the diagnostic phrases matched below are all ASCII). -/
def toLowerChar (c : Char) : Char :=
  if 65 ≤ c.toNat ∧ c.toNat ≤ 90 then Char.ofNat (c.toNat + 32) else c

/-- Lowercase a whole string. -/
def lowerStr (s : List Char) : List Char := s.map toLowerChar

/-- Rust `str::contains(char)`. -/
def containsCh (s : List Char) (c : Char) : Bool := s.any (fun d => d == c)

/-- Whether `needle` is a prefix of `hay` (character-wise). -/
def isPrefixCh : List Char → List Char → Bool
  | [], _ => true
  | _ :: _, [] => false
  | a :: as, b :: bs => a == b && isPrefixCh as bs

/-- Rust `str::contains(&str)`: substring search. -/
def containsSub (hay needle : List Char) : Bool :=
  match hay with
  | [] => isPrefixCh needle []
  | c :: t => isPrefixCh needle (c :: t) || containsSub t needle

/-- Rust `str::trim`: strip leading and trailing whitespace. -/
def rustTrim (s : List Char) : List Char :=
  ((s.dropWhile rustIsWhitespace).reverse.dropWhile rustIsWhitespace).reverse

/-- Rust `str::split(sep).collect()`: split at every separator, keeping
empty pieces (so the result list is never empty). -/
def splitOnCh (sep : Char) : List Char → List (List Char)
  | [] => [[]]
  | c :: rest =>
    let r := splitOnCh sep rest
    if c == sep then [] :: r
    else
      match r with
      | [] => [[c]]
      | h :: tl => (c :: h) :: tl

/-- Whether the string ends with the given character (Rust `str::ends_with`). -/
def endsWithCh (s : List Char) (c : Char) : Bool :=
  match s.getLast? with
  | some d => d == c
  | none => false

/-- Value of a digit string (most significant digit first). -/
def digitsToNat (ds : List Char) : ℕ :=
  ds.foldl (fun acc c => acc * 10 + (c.toNat - 48)) 0

/-- Scale a rational mantissa by a signed decimal exponent. -/
def applyExp (q : ℚ) (ex : ℤ) : ℚ :=
  if 0 ≤ ex then qMul q (mkRat ((10 : ℕ) ^ ex.toNat : ℕ) 1)
  else qMul q (mkRat 1 ((10 : ℕ) ^ (-ex).toNat))

/-- Value of a decimal literal `ip.fp × 10^ex`: the mantissa is
`(ip·10^|fp| + fp) / 10^|fp|`. -/
def decimalToRat (ip fp : List Char) (ex : ℤ) : ℚ :=
  applyExp (mkRat (digitsToNat ip * 10 ^ fp.length + digitsToNat fp : ℕ) (10 ^ fp.length)) ex

/-- Parse the optional exponent suffix of an `f64` literal
(`('e'|'E') sign? digits`); `[]` means exponent zero. -/
def parseExpPart : List Char → Option ℤ
  | [] => some 0
  | c :: rest =>
    if c == 'e' || c == 'E' then
      match rest with
      | '+' :: ds =>
        if ds.isEmpty then none
        else if ds.all isAsciiDigit then some (digitsToNat ds : ℤ) else none
      | '-' :: ds =>
        if ds.isEmpty then none
        else if ds.all isAsciiDigit then some (-(digitsToNat ds : ℤ)) else none
      | ds =>
        if ds.isEmpty then none
        else if ds.all isAsciiDigit then some (digitsToNat ds : ℤ) else none
    else none

/-- Parse an unsigned `f64` number body per Rust's documented grammar
`Count '.'? Count? Exp? | '.' Count Exp?`, exactly (finite values exact). -/
def parseNumBody (s : List Char) : Option ℚ :=
  let ip := s.takeWhile isAsciiDigit
  let rest1 := s.dropWhile isAsciiDigit
  match rest1 with
  | '.' :: r2 =>
    let fp := r2.takeWhile isAsciiDigit
    let rest2 := r2.dropWhile isAsciiDigit
    if ip.isEmpty && fp.isEmpty then none
    else
      match parseExpPart rest2 with
      | some ex => some (decimalToRat ip fp ex)
      | none => none
  | _ =>
    if ip.isEmpty then none
    else
      match parseExpPart rest1 with
      | some ex => some (decimalToRat ip [] ex)
      | none => none

/-- Rust `str::parse::<f64>()`: optional sign, then (case-insensitively)
`inf`, `infinity`, `nan`, or a decimal number. Finite results are exact
rationals (no rounding is modelled). -/
def rustParseF64 (s : List Char) : Option FV :=
  let signed : Bool × List Char :=
    match s with
    | '+' :: r => (false, r)
    | '-' :: r => (true, r)
    | r => (false, r)
  let neg := signed.1
  let body := signed.2
  let low := lowerStr body
  if low == cs r"inf" || low == cs r"infinity" then
    some (if neg then FV.negInf else FV.posInf)
  else if low == cs r"nan" then some FV.nan
  else
    match parseNumBody body with
    | some q => some (FV.fin (if neg then -q else q))
    | none => none

/-- The error type of the crate (`src/error.rs`), restricted to the
variants the verified core can produce. -/
inductive VideoClipError where
  | InvalidTimeFormat (text : List Char)
  | InvalidTimeRange (startV endV : FV)
  | FileNotFound (path : List Char)
  | FFmpegNotFound
  | FFmpegError (msg : List Char)
  | InvalidPath (path : List Char)
deriving DecidableEq

/-- Rust `s.parse::<f64>().map_err(|_| InvalidTimeFormat(ctx))`. -/
def parseF64R (ctx s : List Char) : Except VideoClipError FV :=
  match rustParseF64 s with
  | some v => .ok v
  | none => .error (.InvalidTimeFormat ctx)

/-- State of the composite scanner of `parse_complex_format`: the running
total and the pending number buffer. -/
structure ScanState where
  total : FV
  buffer : List Char
deriving DecidableEq

/-- One character step of `TimeParser::parse_complex_format`
(src/time_parser.rs lines 15-36). -/
def scanStep (ctx : List Char) (st : ScanState) (c : Char) :
    Except VideoClipError ScanState :=
  if isAsciiDigit c || c == '.' then
    .ok ⟨st.total, st.buffer ++ [c]⟩
  else if c == 'h' then
    match rustParseF64 st.buffer with
    | some v => .ok ⟨st.total.add (v.mul (.fin 3600)), []⟩
    | none => .error (.InvalidTimeFormat ctx)
  else if c == 'm' then
    match rustParseF64 st.buffer with
    | some v => .ok ⟨st.total.add (v.mul (.fin 60)), []⟩
    | none => .error (.InvalidTimeFormat ctx)
  else if c == 's' then
    match rustParseF64 st.buffer with
    | some v => .ok ⟨st.total.add v, []⟩
    | none => .error (.InvalidTimeFormat ctx)
  else if rustIsWhitespace c then .ok st
  else .error (.InvalidTimeFormat ctx)

/-- Run the composite scanner over a list of characters. -/
def scanList (ctx : List Char) : List Char → ScanState → Except VideoClipError ScanState
  | [], st => .ok st
  | c :: rest, st =>
    match scanStep ctx st c with
    | .ok st2 => scanList ctx rest st2
    | .error e => .error e

/-- `TimeParser::parse_complex_format` (src/time_parser.rs lines 11-46):
scan the whole string; a non-empty trailing buffer is added as seconds. -/
def parse_complex_format (s : List Char) : Except VideoClipError FV :=
  match scanList s s ⟨.fin 0, []⟩ with
  | .error e => .error e
  | .ok st =>
    if st.buffer.isEmpty then .ok st.total
    else
      match rustParseF64 st.buffer with
      | some v => .ok (st.total.add v)
      | none => .error (.InvalidTimeFormat s)

/-- The colon branch of `TimeParser::parse_to_seconds`
(src/time_parser.rs lines 66-88). -/
def colonBranch (t : List Char) : Except VideoClipError FV :=
  match splitOnCh ':' t with
  | [a, b] =>
    match rustParseF64 a with
    | none => .error (.InvalidTimeFormat t)
    | some m =>
      match rustParseF64 b with
      | none => .error (.InvalidTimeFormat t)
      | some sec => .ok ((m.mul (.fin 60)).add sec)
  | [a, b, c] =>
    match rustParseF64 a with
    | none => .error (.InvalidTimeFormat t)
    | some hh =>
      match rustParseF64 b with
      | none => .error (.InvalidTimeFormat t)
      | some mm =>
        match rustParseF64 c with
        | none => .error (.InvalidTimeFormat t)
        | some ss => .ok (((hh.mul (.fin 3600)).add (mm.mul (.fin 60))).add ss)
  | _ => .error (.InvalidTimeFormat t)

/-- The unit-suffix branch of `TimeParser::parse_to_seconds`
(src/time_parser.rs lines 90-133). -/
def unitBranch (t : List Char) : Except VideoClipError FV :=
  let hasH := containsCh t 'h'
  let hasM := containsCh t 'm'
  let hasS := containsCh t 's'
  let unitCount : ℕ :=
    (if hasH then 1 else 0) + (if hasM then 1 else 0) + (if hasS then 1 else 0)
  if 1 < unitCount then parse_complex_format t
  else if endsWithCh t 's' then
    let num := t.dropLast
    if num.all (fun c => isAsciiDigit c || c == '.') then parseF64R t num
    else parse_complex_format t
  else if endsWithCh t 'm' then
    let num := t.dropLast
    if num.all (fun c => isAsciiDigit c || c == '.') then
      match rustParseF64 num with
      | some v => .ok (v.mul (.fin 60))
      | none => .error (.InvalidTimeFormat t)
    else parse_complex_format t
  else if endsWithCh t 'h' then
    let num := t.dropLast
    if num.all (fun c => isAsciiDigit c || c == '.') then
      match rustParseF64 num with
      | some v => .ok (v.mul (.fin 3600))
      | none => .error (.InvalidTimeFormat t)
    else parse_complex_format t
  else parse_complex_format t

/-- `TimeParser::parse_to_seconds` (src/time_parser.rs lines 48-140). -/
def parse_to_seconds (s : List Char) : Except VideoClipError FV :=
  if s.isEmpty then .ok (.fin 0)
  else
    let t := rustTrim s
    if t.isEmpty then .ok (.fin 0)
    else if t.all (fun c => isAsciiDigit c || c == '.') then parseF64R t t
    else if containsCh t ':' then colonBranch t
    else if containsCh t 'm' || containsCh t 'h' || containsCh t 's' then unitBranch t
    else parseF64R t t

/-- `TimeParser::validate_time_range` (src/time_parser.rs lines 160-168). -/
def validate_time_range (startSec endSec : FV) : Except VideoClipError FV :=
  if FV.le endSec startSec then
    .error (.InvalidTimeRange startSec endSec)
  else .ok (endSec.sub startSec)

/-- Audio codec policy (`AudioCodec` in src/ffmpeg.rs). -/
inductive AudioCodec where
  | Copy
  | Aac
  | Mp3
  | Auto
deriving DecidableEq

/-- The `FFmpegCommand` record (src/ffmpeg.rs lines 12-20); paths are kept
as opaque strings, times as modelled floats. -/
structure FFmpegCommand where
  input : List Char
  output : List Char
  start_time : FV
  duration : FV
  audio_codec : AudioCodec
  preserve_audio_quality : Bool

/-- One `cmd.arg(x)` call: append a token to the argument list. -/
def argPush (args : List (List Char)) (a : List Char) : List (List Char) :=
  args ++ [a]

/-- `FFmpegCommand::build_command` (src/ffmpeg.rs lines 72-123), as the
sequence of `arg` calls of the source; `render` is the platform's default
float-to-string conversion, left abstract. -/
def build_command (render : FV → List Char) (c : FFmpegCommand) : List (List Char) :=
  let args : List (List Char) := []
  let args := argPush (argPush (argPush (argPush (argPush (argPush args
    (cs r"-i")) c.input) (cs r"-ss")) (render c.start_time)) (cs r"-t")) (render c.duration)
  let args := argPush (argPush (argPush (argPush args
    (cs r"-map")) (cs r"0:v?")) (cs r"-map")) (cs r"0:a?")
  let args := argPush (argPush args (cs r"-c:v")) (cs r"copy")
  let args :=
    match c.audio_codec with
    | .Copy => argPush (argPush args (cs r"-c:a")) (cs r"copy")
    | .Aac =>
      let args := argPush (argPush args (cs r"-c:a")) (cs r"aac")
      if c.preserve_audio_quality then argPush (argPush args (cs r"-b:a")) (cs r"128k")
      else args
    | .Mp3 =>
      let args := argPush (argPush args (cs r"-c:a")) (cs r"mp3")
      if c.preserve_audio_quality then argPush (argPush args (cs r"-b:a")) (cs r"128k")
      else args
    | .Auto => argPush (argPush args (cs r"-c:a")) (cs r"copy")
  let args := argPush (argPush (argPush (argPush (argPush (argPush args
    (cs r"-avoid_negative_ts")) (cs r"make_zero")) (cs r"-async")) (cs r"1")) (cs r"-vsync")) (cs r"2")
  argPush (argPush args (cs r"-y")) c.output

/-- `FFmpegCommand::build_fallback_command` (src/ffmpeg.rs lines 208-236). -/
def build_fallback_command (render : FV → List Char) (c : FFmpegCommand) : List (List Char) :=
  let args : List (List Char) := []
  let args := argPush (argPush (argPush (argPush (argPush (argPush args
    (cs r"-i")) c.input) (cs r"-ss")) (render c.start_time)) (cs r"-t")) (render c.duration)
  let args := argPush (argPush (argPush (argPush args
    (cs r"-map")) (cs r"0:v?")) (cs r"-map")) (cs r"0:a?")
  let args := argPush (argPush (argPush (argPush (argPush (argPush args
    (cs r"-c:v")) (cs r"copy")) (cs r"-c:a")) (cs r"aac")) (cs r"-b:a")) (cs r"128k")
  let args := argPush (argPush (argPush (argPush (argPush (argPush (argPush (argPush args
    (cs r"-avoid_negative_ts")) (cs r"make_zero")) (cs r"-async")) (cs r"1")) (cs r"-vsync")) (cs r"2")) (cs r"-y")) c.output
  args

/-- `FFmpegCommand::is_audio_error` (src/ffmpeg.rs lines 163-176). -/
def is_audio_error (stderr : List Char) : Bool :=
  let indicators : List (List Char) :=
    [cs r"codec not currently supported in container",
     cs r"could not find codec parameters for stream",
     cs r"invalid codec tag",
     cs r"audio codec",
     cs r"stream copy",
     cs r"does not support codec"]
  indicators.any (fun ind => containsSub (lowerStr stderr) (lowerStr ind))

/-- Outcome of a completed external process: exit success flag and the
captured standard-error text. -/
structure ProcOutput where
  success : Bool
  stderr : List Char
deriving DecidableEq

/-- Which of the two commands an execution step ran. -/
inductive CmdKind where
  | primary
  | fallback
deriving DecidableEq

/-- `FFmpegCommand::execute` (src/ffmpeg.rs lines 125-161). The process
spawns are abstracted: `primRes` and `fallRes` are the outcomes the host
would produce for the primary and the fallback invocation (`Except.error`
is a spawn failure carrying its message). Besides the result, the list of
commands actually launched is returned, in order. -/
def execute (ffmpegInstalled : Bool)
    (primRes fallRes : Except (List Char) ProcOutput) :
    Except VideoClipError ProcOutput × List CmdKind :=
  if ffmpegInstalled then
    match primRes with
    | .error e => (.error (.FFmpegError e), [.primary])
    | .ok out =>
      if out.success then (.ok out, [.primary])
      else if is_audio_error out.stderr then
        match fallRes with
        | .error e => (.error (.FFmpegError e), [.primary, .fallback])
        | .ok fout =>
          if fout.success then (.ok fout, [.primary, .fallback])
          else
            (.error (.FFmpegError (cs r"FFmpeg failed even with fallback: " ++ fout.stderr)),
             [.primary, .fallback])
      else (.error (.FFmpegError (cs r"FFmpeg failed: " ++ out.stderr)), [.primary])
  else (.error .FFmpegNotFound, [])

/-! Definitions written from the specification's words, to be compared with
the ones translated from the source. -/

/-- Following the spec's words: the audio-codec token table of §4.2. -/
def audioCodecTokens : AudioCodec → Bool → List (List Char)
  | .Copy, _ => [cs r"-c:a", cs r"copy"]
  | .Auto, _ => [cs r"-c:a", cs r"copy"]
  | .Aac, true => [cs r"-c:a", cs r"aac", cs r"-b:a", cs r"128k"]
  | .Aac, false => [cs r"-c:a", cs r"aac"]
  | .Mp3, true => [cs r"-c:a", cs r"mp3", cs r"-b:a", cs r"128k"]
  | .Mp3, false => [cs r"-c:a", cs r"mp3"]

/-- Following the spec's words: the fixed primary argument template of §4.2,
with the audio-codec tokens spliced in. -/
def primaryArgsSpec (render : FV → List Char) (c : FFmpegCommand) : List (List Char) :=
  [cs r"-i", c.input, cs r"-ss", render c.start_time, cs r"-t", render c.duration,
   cs r"-map", cs r"0:v?", cs r"-map", cs r"0:a?", cs r"-c:v", cs r"copy"]
  ++ audioCodecTokens c.audio_codec c.preserve_audio_quality
  ++ [cs r"-avoid_negative_ts", cs r"make_zero", cs r"-async", cs r"1",
      cs r"-vsync", cs r"2", cs r"-y", c.output]

/-- Following the spec's words: the multiplier (in seconds) of each unit
letter of the composite grammar. -/
def unitMultiplier (c : Char) : Option ℚ :=
  if c == 'h' then some 3600
  else if c == 'm' then some 60
  else if c == 's' then some 1
  else none

/-- Following the spec's words (§4.1 step 4): one step of the composite
scanner — a unit letter converts the pending buffer with its multiplier and
adds it to the total, digits and a dot accumulate, whitespace is skipped,
anything else is an immediate error. -/
def scanSpecStep (ctx : List Char) (st : ScanState) (c : Char) :
    Except VideoClipError ScanState :=
  match unitMultiplier c with
  | some mult =>
    match rustParseF64 st.buffer with
    | some v => .ok ⟨st.total.add (v.mul (.fin mult)), []⟩
    | none => .error (.InvalidTimeFormat ctx)
  | none =>
    if isAsciiDigit c || c == '.' then .ok ⟨st.total, st.buffer ++ [c]⟩
    else if rustIsWhitespace c then .ok st
    else .error (.InvalidTimeFormat ctx)

/-- Run the spec's composite scanner over a list of characters. -/
def scanSpecList (ctx : List Char) : List Char → ScanState → Except VideoClipError ScanState
  | [], st => .ok st
  | c :: rest, st =>
    match scanSpecStep ctx st c with
    | .ok st2 => scanSpecList ctx rest st2
    | .error e => .error e

/-- Following the spec's words: the whole composite scanner — walk the
string, and a non-empty trailing number buffer is added as plain seconds. -/
def parseCompositeSpec (s : List Char) : Except VideoClipError FV :=
  match scanSpecList s s ⟨.fin 0, []⟩ with
  | .error e => .error e
  | .ok st =>
    if st.buffer.isEmpty then .ok st.total
    else
      match rustParseF64 st.buffer with
      | some v => .ok (st.total.add v)
      | none => .error (.InvalidTimeFormat s)

/-- Decidable equality for `Except` results. -/
instance exceptDecEq {α β : Type} [DecidableEq α] [DecidableEq β] :
    DecidableEq (Except α β) := fun x y =>
  match x, y with
  | .error a, .error b =>
    if h : a = b then .isTrue (by rw [h]) else .isFalse (by simp [h])
  | .ok a, .ok b =>
    if h : a = b then .isTrue (by rw [h]) else .isFalse (by simp [h])
  | .error _, .ok _ => .isFalse (by simp)
  | .ok _, .error _ => .isFalse (by simp)

/-! Bridge lemmas: the `mkRat`-computed arithmetic agrees with the standard
rational operations. -/

theorem qAdd_eq (a b : ℚ) : qAdd a b = a + b := by
  rw [qAdd, Rat.mkRat_eq_div]
  conv_rhs => rw [← Rat.num_div_den a, ← Rat.num_div_den b]
  have ha : ((a.den : ℚ)) ≠ 0 := by exact_mod_cast a.den_nz
  have hb : ((b.den : ℚ)) ≠ 0 := by exact_mod_cast b.den_nz
  field_simp

theorem qMul_eq (a b : ℚ) : qMul a b = a * b := by
  rw [qMul, Rat.mkRat_eq_div]
  conv_rhs => rw [← Rat.num_div_den a, ← Rat.num_div_den b]
  have ha : ((a.den : ℚ)) ≠ 0 := by exact_mod_cast a.den_nz
  have hb : ((b.den : ℚ)) ≠ 0 := by exact_mod_cast b.den_nz
  field_simp

theorem qNeg_eq (a : ℚ) : qNeg a = -a := by
  rw [qNeg, Rat.mkRat_eq_div]
  conv_rhs => rw [← Rat.num_div_den a]
  push_cast
  ring

theorem FV.zero_add (v : FV) : (FV.fin 0).add v = v := by
  cases v <;> simp [FV.add, qAdd_eq]

theorem FV.mul_one_right (v : FV) : v.mul (.fin 1) = v := by
  cases v <;> simp [FV.mul, qMul_eq]

theorem FV.sub_zero (v : FV) : v.sub (.fin 0) = v := by
  cases v <;> simp [FV.sub, FV.neg, FV.add, qNeg_eq, qAdd_eq]

theorem isAsciiDigit_not_ws {c : Char} (h : isAsciiDigit c = true) :
    rustIsWhitespace c = false := by
  rw [isAsciiDigit, decide_eq_true_iff] at h
  rw [rustIsWhitespace]
  simp only [Bool.or_eq_false_iff, decide_eq_false_iff_not]
  omega

theorem dot_not_ws : rustIsWhitespace '.' = false := by decide

theorem unit_not_ws {u : Char} (h : u = 'h' ∨ u = 'm' ∨ u = 's') :
    rustIsWhitespace u = false := by
  rcases h with h | h | h <;> subst h <;> decide

theorem rustTrim_id {s : List Char} (h : ∀ c ∈ s, rustIsWhitespace c = false) :
    rustTrim s = s := by
  have front : ∀ (l : List Char), (∀ c ∈ l, rustIsWhitespace c = false) →
      l.dropWhile rustIsWhitespace = l := by
    intro l hl
    cases l with
    | nil => rfl
    | cons a t => simp [List.dropWhile_cons, hl a (by simp)]
  rw [rustTrim, front s h, front s.reverse (by intro c hc; exact h c (List.mem_reverse.mp hc)),
    List.reverse_reverse]

theorem scanList_append (ctx : List Char) (l1 l2 : List Char) (st : ScanState) :
    scanList ctx (l1 ++ l2) st =
      (match scanList ctx l1 st with
       | .ok st2 => scanList ctx l2 st2
       | .error e => .error e) := by
  induction l1 generalizing st with
  | nil => simp [scanList]
  | cons c rest ih =>
    simp only [List.cons_append, scanList]
    cases scanStep ctx st c with
    | ok st2 => exact ih st2
    | error e => rfl

theorem scanStep_digit (ctx : List Char) (st : ScanState) {c : Char}
    (h : isAsciiDigit c = true ∨ c = '.') :
    scanStep ctx st c = .ok ⟨st.total, st.buffer ++ [c]⟩ := by
  rw [scanStep, if_pos]
  rcases h with h | h
  · simp [h]
  · simp [h]

theorem scanList_digits (ctx : List Char) (pre : List Char) (st : ScanState)
    (h : ∀ c ∈ pre, isAsciiDigit c = true ∨ c = '.') :
    scanList ctx pre st = .ok ⟨st.total, st.buffer ++ pre⟩ := by
  induction pre generalizing st with
  | nil => simp [scanList]
  | cons c rest ih =>
    rw [scanList, scanStep_digit ctx st (h c (by simp))]
    have hrest := ih ⟨st.total, st.buffer ++ [c]⟩ (fun d hd => h d (by simp [hd]))
    simpa using hrest

theorem scanStep_eq_spec (ctx : List Char) (st : ScanState) (c : Char) :
    scanStep ctx st c = scanSpecStep ctx st c := by
  by_cases hh : c = 'h'
  · subst hh
    simp [scanStep, scanSpecStep, unitMultiplier, isAsciiDigit]
  by_cases hm : c = 'm'
  · subst hm
    simp [scanStep, scanSpecStep, unitMultiplier, isAsciiDigit]
  by_cases hs : c = 's'
  · subst hs
    simp only [scanStep, scanSpecStep, unitMultiplier, isAsciiDigit]
    norm_num
    cases rustParseF64 st.buffer with
    | none => rfl
    | some v => simp [FV.mul_one_right]
  · have h1 : (c == 'h') = false := by simp [hh]
    have h2 : (c == 'm') = false := by simp [hm]
    have h3 : (c == 's') = false := by simp [hs]
    simp [scanStep, scanSpecStep, unitMultiplier, h1, h2, h3]

theorem scanList_eq_spec (ctx : List Char) (l : List Char) (st : ScanState) :
    scanList ctx l st = scanSpecList ctx l st := by
  induction l generalizing st with
  | nil => rfl
  | cons c rest ih =>
    rw [scanList, scanSpecList, scanStep_eq_spec]
    cases scanSpecStep ctx st c with
    | ok st2 => exact ih st2
    | error e => rfl

theorem parse_complex_eq_spec (s : List Char) :
    parse_complex_format s = parseCompositeSpec s := by
  rw [parse_complex_format, parseCompositeSpec, scanList_eq_spec]

theorem any_beq_false {l : List Char} {x : Char}
    (h : ∀ c ∈ l, (c == x) = false) : l.any (fun d => d == x) = false := by
  induction l with
  | nil => rfl
  | cons a t ih =>
    simp only [List.any_cons, h a (by simp), Bool.false_or]
    exact ih (fun c hc => h c (by simp [hc]))

theorem digits_beq_false (pre : List Char)
    (hp : ∀ c ∈ pre, isAsciiDigit c = true ∨ c = '.')
    (x : Char) (hx : isAsciiDigit x = false) (hdot : x ≠ '.') :
    ∀ c ∈ pre, (c == x) = false := by
  intro c hc
  rw [beq_eq_false_iff_ne]
  intro e
  rcases hp c hc with h | h
  · rw [e, hx] at h
    cases h
  · rw [h] at e
    exact hdot e.symm

theorem scanList_singleton (ctx : List Char) (st : ScanState) (u : Char) :
    scanList ctx [u] st = scanStep ctx st u := by
  cases h : scanStep ctx st u <;> simp [scanList, h]

/-- C9: for every expression consisting of a digits-and-dot prefix followed
by a single trailing unit letter (`h`, `m` or `s`), the fast single-unit path
taken by `parse_to_seconds` returns the same result — and fails in the same
way — as running the composite scanner `parse_complex_format` on the whole
string. -/
theorem parse_single_unit_eq_scanner (pre : List Char) (u : Char)
    (hu : u = 'h' ∨ u = 'm' ∨ u = 's')
    (hp : ∀ c ∈ pre, isAsciiDigit c = true ∨ c = '.') :
    parse_to_seconds (pre ++ [u]) = parse_complex_format (pre ++ [u]) := by
  have hnws : ∀ c ∈ pre ++ [u], rustIsWhitespace c = false := by
    intro c hc
    rcases List.mem_append.mp hc with h | h
    · rcases hp c h with hd | hd
      · exact isAsciiDigit_not_ws hd
      · rw [hd]
        exact dot_not_ws
    · have hcu : c = u := by simpa using h
      rw [hcu]
      exact unit_not_ws hu
  have htrim : rustTrim (pre ++ [u]) = pre ++ [u] := rustTrim_id hnws
  have hpall : pre.all (fun c => isAsciiDigit c || c == '.') = true := by
    rw [List.all_eq_true]
    intro c hc
    rcases hp c hc with h | h <;> simp [h]
  have hpu : (isAsciiDigit u || u == '.') = false := by
    rcases hu with h | h | h <;> subst h <;> decide
  have hall : (pre ++ [u]).all (fun c => isAsciiDigit c || c == '.') = false := by
    simp only [List.all_append, List.all_cons, List.all_nil, hpu]
    simp
  have hisE : (pre ++ [u]).isEmpty = false := by simp
  have hnocolon : containsCh (pre ++ [u]) ':' = false := by
    rw [containsCh, List.any_append]
    have h1 : pre.any (fun d => d == ':') = false :=
      any_beq_false (digits_beq_false pre hp ':' (by decide) (by decide))
    have h2 : (u == ':') = false := by rcases hu with h | h | h <;> subst h <;> decide
    simp [h1, h2]
  have hpreh : pre.any (fun d => d == 'h') = false :=
    any_beq_false (digits_beq_false pre hp 'h' (by decide) (by decide))
  have hprem : pre.any (fun d => d == 'm') = false :=
    any_beq_false (digits_beq_false pre hp 'm' (by decide) (by decide))
  have hpres : pre.any (fun d => d == 's') = false :=
    any_beq_false (digits_beq_false pre hp 's' (by decide) (by decide))
  have hlast : (pre ++ [u]).getLast? = some u := by simp
  have hdrop : (pre ++ [u]).dropLast = pre := by simp
  have hcontu : (containsCh (pre ++ [u]) 'm' || containsCh (pre ++ [u]) 'h' ||
      containsCh (pre ++ [u]) 's') = true := by
    rcases hu with h | h | h <;> subst h <;>
      simp [containsCh, List.any_append]
  have hroute : parse_to_seconds (pre ++ [u]) = unitBranch (pre ++ [u]) := by
    simp only [parse_to_seconds, hisE, htrim, hall, hnocolon, hcontu,
      Bool.false_eq_true, if_false, if_true]
  have hscan : scanList (pre ++ [u]) (pre ++ [u]) ⟨.fin 0, []⟩ =
      scanStep (pre ++ [u]) ⟨.fin 0, pre⟩ u := by
    rw [scanList_append, scanList_digits _ pre _ hp]
    simpa using scanList_singleton (pre ++ [u]) ⟨.fin 0, pre⟩ u
  rw [hroute]
  rcases hu with h | h | h <;> subst h
  · -- u = 'h'
    have hH : containsCh (pre ++ ['h']) 'h' = true := by
      simp [containsCh, List.any_append]
    have hM : containsCh (pre ++ ['h']) 'm' = false := by
      simp [containsCh, List.any_append, hprem]
    have hS : containsCh (pre ++ ['h']) 's' = false := by
      simp [containsCh, List.any_append, hpres]
    have e1 : endsWithCh (pre ++ ['h']) 's' = false := by
      rw [endsWithCh, hlast]
      decide
    have e2 : endsWithCh (pre ++ ['h']) 'm' = false := by
      rw [endsWithCh, hlast]
      decide
    have e3 : endsWithCh (pre ++ ['h']) 'h' = true := by
      rw [endsWithCh, hlast]
      decide
    have d1 : scanStep (pre ++ ['h']) ⟨.fin 0, pre⟩ 'h' =
        (match rustParseF64 pre with
         | some v => .ok ⟨(FV.fin 0).add (v.mul (.fin 3600)), []⟩
         | none => .error (.InvalidTimeFormat (pre ++ ['h']))) := by
      rw [scanStep, if_neg (by decide), if_pos (by decide)]
    rw [parse_complex_format, hscan, d1]
    cases hv : rustParseF64 pre with
    | some v =>
      simp [unitBranch, hH, hM, hS, e1, e2, e3, hdrop, hpall, hp, hv, FV.zero_add]
    | none =>
      simp [unitBranch, hH, hM, hS, e1, e2, e3, hdrop, hpall, hp, hv]
  · -- u = 'm'
    have hH : containsCh (pre ++ ['m']) 'h' = false := by
      simp [containsCh, List.any_append, hpreh]
    have hM : containsCh (pre ++ ['m']) 'm' = true := by
      simp [containsCh, List.any_append]
    have hS : containsCh (pre ++ ['m']) 's' = false := by
      simp [containsCh, List.any_append, hpres]
    have e1 : endsWithCh (pre ++ ['m']) 's' = false := by
      rw [endsWithCh, hlast]
      decide
    have e2 : endsWithCh (pre ++ ['m']) 'm' = true := by
      rw [endsWithCh, hlast]
      decide
    have d1 : scanStep (pre ++ ['m']) ⟨.fin 0, pre⟩ 'm' =
        (match rustParseF64 pre with
         | some v => .ok ⟨(FV.fin 0).add (v.mul (.fin 60)), []⟩
         | none => .error (.InvalidTimeFormat (pre ++ ['m']))) := by
      rw [scanStep, if_neg (by decide), if_neg (by decide), if_pos (by decide)]
    rw [parse_complex_format, hscan, d1]
    cases hv : rustParseF64 pre with
    | some v =>
      simp [unitBranch, hH, hM, hS, e1, e2, hdrop, hpall, hp, hv, FV.zero_add]
    | none =>
      simp [unitBranch, hH, hM, hS, e1, e2, hdrop, hpall, hp, hv]
  · -- u = 's'
    have hH : containsCh (pre ++ ['s']) 'h' = false := by
      simp [containsCh, List.any_append, hpreh]
    have hM : containsCh (pre ++ ['s']) 'm' = false := by
      simp [containsCh, List.any_append, hprem]
    have hS : containsCh (pre ++ ['s']) 's' = true := by
      simp [containsCh, List.any_append]
    have e1 : endsWithCh (pre ++ ['s']) 's' = true := by
      rw [endsWithCh, hlast]
      decide
    have d1 : scanStep (pre ++ ['s']) ⟨.fin 0, pre⟩ 's' =
        (match rustParseF64 pre with
         | some v => .ok ⟨(FV.fin 0).add v, []⟩
         | none => .error (.InvalidTimeFormat (pre ++ ['s']))) := by
      rw [scanStep, if_neg (by decide), if_neg (by decide), if_neg (by decide),
        if_pos (by decide)]
    rw [parse_complex_format, hscan, d1]
    cases hv : rustParseF64 pre with
    | some v =>
      simp [unitBranch, hH, hM, hS, e1, hdrop, hpall, hp, parseF64R, hv, FV.zero_add]
    | none =>
      simp [unitBranch, hH, hM, hS, e1, hdrop, hpall, hp, parseF64R, hv]

theorem parse_routes_colon (s : List Char) (h1 : rustTrim s = s) (h2 : s ≠ [])
    (h3 : s.all (fun c => isAsciiDigit c || c == '.') = false)
    (h4 : containsCh s ':' = true) :
    parse_to_seconds s = colonBranch s := by
  have hne : s.isEmpty = false := by simp [h2]
  simp only [parse_to_seconds, hne, h1, h3, h4, Bool.false_eq_true, if_false, if_true]

/-- C1: execution protocol of `FFmpegCommand::execute` — the primary
command runs first; a success is returned as is; a failure whose diagnostic
is audio-related triggers exactly one fallback run whose outcome (success or
failure) is final; a non-audio failure is surfaced without retry; at most
one retry (two launches) ever occurs. -/
theorem execute_retry_protocol (primRes fallRes : Except (List Char) ProcOutput) :
    (execute true primRes fallRes).2.length ≤ 2 ∧
    (∀ out, primRes = .ok out → out.success = true →
      execute true primRes fallRes = (.ok out, [.primary])) ∧
    (∀ out, primRes = .ok out → out.success = false →
      is_audio_error out.stderr = true →
      (execute true primRes fallRes).2 = [.primary, .fallback] ∧
      (∀ fout, fallRes = .ok fout → fout.success = true →
        (execute true primRes fallRes).1 = .ok fout) ∧
      (∀ fout, fallRes = .ok fout → fout.success = false →
        (execute true primRes fallRes).1 =
          .error (.FFmpegError (cs r"FFmpeg failed even with fallback: " ++ fout.stderr)))) ∧
    (∀ out, primRes = .ok out → out.success = false →
      is_audio_error out.stderr = false →
      execute true primRes fallRes =
        (.error (.FFmpegError (cs r"FFmpeg failed: " ++ out.stderr)), [.primary])) := by
  refine ⟨?_, ?_, ?_, ?_⟩
  · cases primRes with
    | error e => simp [execute]
    | ok out =>
      by_cases hs : out.success
      · simp [execute, hs]
      · by_cases ha : is_audio_error out.stderr
        · cases fallRes with
          | error e => simp [execute, hs, ha]
          | ok fout =>
            by_cases hf : fout.success <;> simp [execute, hs, ha, hf]
        · simp [execute, hs, ha]
  · intro out heq hsucc
    subst heq
    simp [execute, hsucc]
  · intro out heq hsucc haud
    subst heq
    refine ⟨?_, ?_, ?_⟩
    · cases fallRes with
      | error e => simp [execute, hsucc, haud]
      | ok fout => by_cases hf : fout.success <;> simp [execute, hsucc, haud, hf]
    · intro fout hfeq hfs
      subst hfeq
      simp [execute, hsucc, haud, hfs]
    · intro fout hfeq hfs
      subst hfeq
      simp [execute, hsucc, haud, hfs]
  · intro out heq hsucc haud
    subst heq
    simp [execute, hsucc, haud]

/-- C2: for every command and every float renderer, the primary argument
list built by `build_command` is exactly the spec's fixed template
`-i <input> -ss <start> -t <duration> -map 0:v? -map 0:a? -c:v copy
<audio-codec-tokens> -avoid_negative_ts make_zero -async 1 -vsync 2 -y
<output>`, with the audio-codec tokens given by the spec's policy table. -/
theorem build_command_matches_spec (render : FV → List Char) (c : FFmpegCommand) :
    build_command render c = primaryArgsSpec render c := by
  cases c with
  | mk input output st dur codec pres =>
    cases codec <;> cases pres <;>
      simp [build_command, primaryArgsSpec, argPush, audioCodecTokens]

/-- C3: for every command, the fallback argument list is identical to the
primary list except that the audio-codec tokens are unconditionally
`-c:a aac -b:a 128k` — i.e. it equals the primary list of the same command
with its policy forced to Aac and preserve-quality forced on. -/
theorem fallback_forces_aac (render : FV → List Char) (c : FFmpegCommand) :
    build_fallback_command render c =
      build_command render
        { c with audio_codec := AudioCodec.Aac, preserve_audio_quality := true } := by
  cases c with
  | mk input output st dur codec pres =>
    simp [build_fallback_command, build_command, argPush]

/-- C6: `is_audio_error` returns true iff the diagnostic text contains,
case-insensitively, one of the six fixed phrases; in particular the
mixed-case parameter phrase matches and "Permission denied" does not. -/
theorem audio_failure_phrase_match :
    (∀ s : List Char, is_audio_error s = true ↔
      (containsSub (lowerStr s) (lowerStr (cs r"codec not currently supported in container")) = true ∨
       containsSub (lowerStr s) (lowerStr (cs r"could not find codec parameters for stream")) = true ∨
       containsSub (lowerStr s) (lowerStr (cs r"invalid codec tag")) = true ∨
       containsSub (lowerStr s) (lowerStr (cs r"audio codec")) = true ∨
       containsSub (lowerStr s) (lowerStr (cs r"stream copy")) = true ∨
       containsSub (lowerStr s) (lowerStr (cs r"does not support codec")) = true)) ∧
    is_audio_error (cs r"Could Not Find Codec Parameters For Stream") = true ∧
    is_audio_error (cs r"Permission denied") = false := by
  refine ⟨?_, by decide, by decide⟩
  intro s
  simp [is_audio_error]

/-- C7: `validate_time_range` fails with `InvalidTimeRange` carrying exactly
the given (start, end) pair iff `end <= start`; otherwise it returns
`end - start`; zero-length ranges are rejected for every finite value, and
`validateRange(0, s) = s` for every `s > 0`. -/
theorem validate_range_semantics :
    (∀ a b : FV, (validate_time_range a b = .error (.InvalidTimeRange a b) ↔ FV.le b a = true)) ∧
    (∀ a b : FV, FV.le b a = false → validate_time_range a b = .ok (b.sub a)) ∧
    (∀ q : ℚ, validate_time_range (.fin q) (.fin q) =
      .error (.InvalidTimeRange (.fin q) (.fin q))) ∧
    (∀ q : ℚ, 0 < q → validate_time_range (.fin 0) (.fin q) = .ok (.fin q)) := by
  refine ⟨?_, ?_, ?_, ?_⟩
  · intro a b
    by_cases h : FV.le b a <;> simp [validate_time_range, h]
  · intro a b h
    simp [validate_time_range, h]
  · intro q
    simp [validate_time_range, FV.le]
  · intro q hq
    have hle : FV.le (.fin q) (.fin 0) = false := by
      simp only [FV.le, decide_eq_false_iff_not]
      exact not_le.mpr hq
    simp [validate_time_range, hle, FV.sub_zero]

/-- Witness for C7 at start 0, end 5. -/
theorem validate_range_witness :
    validate_time_range (FV.fin 0) (FV.fin 5) = .ok (.fin 5) :=
  validate_range_semantics.2.2.2 5 (by norm_num)

/-- C5: on every trimmed non-empty expression that is not all digits/dots
and contains a colon, `parse_to_seconds` splits on `:`; two parts give
`minutes*60 + seconds`, three parts give `hours*3600 + minutes*60 +
seconds`, any other part count fails with `InvalidTimeFormat`, and a part
that does not parse as a number fails with `InvalidTimeFormat`. -/
theorem colon_split_semantics (s : List Char) (h1 : rustTrim s = s) (h2 : s ≠ [])
    (h3 : s.all (fun c => isAsciiDigit c || c == '.') = false)
    (h4 : containsCh s ':' = true) :
    (∀ a b, splitOnCh ':' s = [a, b] →
      parse_to_seconds s =
        (match rustParseF64 a, rustParseF64 b with
         | some m, some sec => Except.ok ((m.mul (FV.fin 60)).add sec)
         | _, _ => Except.error (VideoClipError.InvalidTimeFormat s))) ∧
    (∀ a b c, splitOnCh ':' s = [a, b, c] →
      parse_to_seconds s =
        (match rustParseF64 a, rustParseF64 b, rustParseF64 c with
         | some hh, some mm, some ss =>
             Except.ok (((hh.mul (FV.fin 3600)).add (mm.mul (FV.fin 60))).add ss)
         | _, _, _ => Except.error (VideoClipError.InvalidTimeFormat s))) ∧
    ((splitOnCh ':' s).length ≠ 2 → (splitOnCh ':' s).length ≠ 3 →
      parse_to_seconds s = Except.error (VideoClipError.InvalidTimeFormat s)) := by
  have hr := parse_routes_colon s h1 h2 h3 h4
  refine ⟨?_, ?_, ?_⟩
  · intro a b hab
    rw [hr, colonBranch, hab]
    cases ha : rustParseF64 a <;> cases hb : rustParseF64 b <;> simp [ha, hb]
  · intro a b c habc
    rw [hr, colonBranch, habc]
    cases ha : rustParseF64 a <;> cases hb : rustParseF64 b <;>
      cases hc : rustParseF64 c <;> simp [ha, hb, hc]
  · intro hl2 hl3
    rw [hr, colonBranch]
    cases hsp : splitOnCh ':' s with
    | nil => rfl
    | cons a t =>
      cases t with
      | nil => rfl
      | cons b t2 =>
        cases t2 with
        | nil => exact absurd (show (splitOnCh ':' s).length = 2 by rw [hsp]; rfl) hl2
        | cons c t3 =>
          cases t3 with
          | nil => exact absurd (show (splitOnCh ':' s).length = 3 by rw [hsp]; rfl) hl3
          | cons d t4 => rfl

/-- Witness for C5 at the expression 1:30:45, which parses to 5445. -/
theorem colon_split_witness :
    parse_to_seconds (cs r"1:30:45") = .ok (.fin 5445) := by
  have h := (colon_split_semantics (cs r"1:30:45") (by decide) (by decide)
    (by decide) (by decide)).2.1 (cs r"1") (cs r"30") (cs r"45") (by decide)
  rw [h]
  decide

/-- C8 counterexample: the expression 1.5:30, whose non-last field has a
fractional part, does not fail — it parses successfully to 120 seconds
(the repository's own test expects exactly this). -/
theorem colon_fractional_counterexample :
    parse_to_seconds (cs r"1.5:30") = .ok (.fin 120) := by decide

/-- C8 amended: in colon-delimited expressions a fractional part is allowed
in any field, not only the last — every 2- or 3-field colon expression whose
fields parse as numbers yields the weighted sum of its fields. -/
theorem colon_fractional_any_field (s : List Char) (h1 : rustTrim s = s) (h2 : s ≠ [])
    (h3 : s.all (fun c => isAsciiDigit c || c == '.') = false)
    (h4 : containsCh s ':' = true) :
    (∀ a b x y, splitOnCh ':' s = [a, b] →
      rustParseF64 a = some x → rustParseF64 b = some y →
      parse_to_seconds s = .ok ((x.mul (.fin 60)).add y)) ∧
    (∀ a b c x y z, splitOnCh ':' s = [a, b, c] →
      rustParseF64 a = some x → rustParseF64 b = some y → rustParseF64 c = some z →
      parse_to_seconds s = .ok (((x.mul (.fin 3600)).add (y.mul (.fin 60))).add z)) := by
  have hr := parse_routes_colon s h1 h2 h3 h4
  constructor
  · intro a b x y hab hx hy
    rw [hr, colonBranch, hab]
    simp [hx, hy]
  · intro a b c x y z habc hx hy hz
    rw [hr, colonBranch, habc]
    simp [hx, hy, hz]

/-- Witness for amended C8 at 1.5:30 = 1.5*60 + 30. -/
theorem colon_fractional_any_field_witness :
    parse_to_seconds (cs r"1.5:30") =
      .ok (((FV.fin (mkRat 3 2)).mul (FV.fin 60)).add (FV.fin 30)) :=
  (colon_fractional_any_field (cs r"1.5:30") (by decide) (by decide) (by decide)
    (by decide)).1 (cs r"1.5") (cs r"30") (FV.fin (mkRat 3 2)) (FV.fin 30)
    (by decide) (by decide) (by decide)

/-- Witness for C9 at the expression 1.5h. -/
theorem single_unit_fast_witness :
    parse_to_seconds (cs r"1.5" ++ ['h']) = parse_complex_format (cs r"1.5" ++ ['h']) :=
  parse_single_unit_eq_scanner (cs r"1.5") 'h' (Or.inl rfl) (by decide)

/-- C4: the composite scanner of `parse_complex_format` behaves exactly as
the spec describes it (digits/dot accumulate, a unit letter converts the
buffer by its multiplier 3600/60/1 and adds it, whitespace is skipped,
anything else is `InvalidTimeFormat`, a trailing number is added as
seconds); hence parse("30m45") = 1845 and a unit letter with an empty
buffer, as in "h30m", is `InvalidTimeFormat`. -/
theorem composite_scanner_matches_spec :
    (∀ s : List Char, parse_complex_format s = parseCompositeSpec s) ∧
    parse_to_seconds (cs r"30m45") = .ok (.fin 1845) ∧
    parse_to_seconds (cs r"h30m") = .error (.InvalidTimeFormat (cs r"h30m")) :=
  ⟨parse_complex_eq_spec, by decide, by decide⟩

/-- C10: numeric fields outside the all-digits fast path go through the
platform's general float parser, so parse("-5:30") succeeds with the
negative value -270 and parse("inf") succeeds with positive infinity. -/
theorem general_float_parser_escape :
    parse_to_seconds (cs r"-5:30") = .ok (.fin (-270)) ∧
    parse_to_seconds (cs r"inf") = .ok FV.posInf :=
  ⟨by decide, by decide⟩

/-- Witness for C1: a primary failure with an audio-related diagnostic
followed by a successful fallback run. -/
theorem execute_retry_witness :
    execute true (.ok ⟨false, cs r"audio codec missing"⟩) (.ok ⟨true, []⟩) =
      (.ok ⟨true, []⟩, [.primary, .fallback]) := by
  have h := (execute_retry_protocol (.ok ⟨false, cs r"audio codec missing"⟩)
    (.ok ⟨true, []⟩)).2.2.1 ⟨false, cs r"audio codec missing"⟩ rfl rfl (by decide)
  have h2 := h.2.1 ⟨true, []⟩ rfl rfl
  have h1 := h.1
  cases hex : execute true (.ok ⟨false, cs r"audio codec missing"⟩) (.ok ⟨true, []⟩) with
  | mk res trace =>
    rw [hex] at h1 h2
    simp at h1 h2
    rw [h1, h2]
